import Mathlib

/-!
# Verification of the BPF no-op program's entrypoint and deserialization contract

The source under scrutiny is `src/programs/bpf/c/src/noop.c`: a C BPF program whose
exported `entrypoint` logs the source file name, calls `sol_deserialize` on the raw
input buffer with a one-element destination array, returns `false` on failure, and
otherwise logs the tick height and the parsed parameters before returning `true`.

`sol_deserialize` itself (and the `SolKeyedAccounts` / `SolClusterInfo` types and the
logging helpers) live in `solana_sdk.h`, which is not part of the source tree; they
are modelled here from the specification's description of the binary layout and the
deserialization contract (spec §3, §4.1): a leading count field, that many account
records (flag byte, public key, owner key, balance counter, data length, inline
data), an instruction-data length field and bytes, and a trailing cluster-info
record, with every read bounds-checked against the buffer and a capacity check on
the account count.

Bytes are modelled as `Nat` list elements; multi-byte integer fields are 64-bit
little-endian, and borrowed slices are modelled as offset/length views into the
input buffer (the spec's recommended memory-safe rendering of the borrowed-pointer
pattern).
-/

namespace Noop

/-- Decode a little-endian byte list into a natural number. -/
def bytesToNatLE : List Nat → Nat
  | [] => 0
  | b :: bs => b + 256 * bytesToNatLE bs

/-- Encode the low `k` bytes of a natural number, little-endian. -/
def natToBytesLE : Nat → Nat → List Nat
  | 0, _ => []
  | k + 1, n => n % 256 :: natToBytesLE k (n / 256)

/-- Modelled from the spec: a bounds-checked read of `n` bytes at offset `off` of the
input buffer.  It fails (rather than reading out of bounds) whenever the requested
region extends past the end of the buffer. -/
def readBytes (b : List Nat) (off n : Nat) : Option (List Nat) :=
  if off + n ≤ b.length then some ((b.drop off).take n) else none

/-- Modelled from the spec: read a 64-bit little-endian unsigned integer field. -/
def readU64 (b : List Nat) (off : Nat) : Option Nat :=
  (readBytes b off 8).map bytesToNatLE

/-- A borrowed view into the input buffer: an offset and a length.  This renders the
spec's borrowed slices (account data, instruction data) without raw aliasing. -/
structure Slice where
  off : Nat
  len : Nat
deriving DecidableEq, Repr

/-- The bytes a slice refers to, read out of the underlying buffer. -/
def sliceBytes (b : List Nat) (s : Slice) : List Nat :=
  (b.drop s.off).take s.len

/-- Modelled from the spec: one parsed `SolKeyedAccounts` record — a public key, the
mutable/immutable flag, an owner identifier, a balance counter, and a borrowed data
slice (spec §3, KeyedAccount). -/
structure SolKeyedAccounts where
  key : List Nat
  writable : Bool
  owner : List Nat
  lamports : Nat
  userdata : Slice
deriving DecidableEq, Repr

/-- Modelled from the spec: the fixed-size trailing metadata record (spec §3,
ClusterInfo, e.g. current tick height). -/
structure SolClusterInfo where
  tick_height : Nat
deriving DecidableEq, Repr

/-- The full result `sol_deserialize` hands back through its output parameters: the
populated account array, the account count, the instruction-data slice, the cluster
info, and (for reasoning about truncation) the end of the region it consumed. -/
structure SolDeserialized where
  ka : List SolKeyedAccounts
  ka_len : Nat
  data : Slice
  info : SolClusterInfo
  endPos : Nat
deriving DecidableEq, Repr

/-- Modelled from the spec: parse one fixed-size account record at offset `off` — a
flag byte, a 32-byte public key, a 32-byte owner key, a 64-bit balance counter, a
64-bit data-length field, and that many inline data bytes.  Returns the parsed
record and the offset just past it; every read is bounds-checked. -/
def parseAccount (b : List Nat) (off : Nat) : Option (SolKeyedAccounts × Nat) := do
  let flag ← readBytes b off 1
  let key ← readBytes b (off + 1) 32
  let owner ← readBytes b (off + 33) 32
  let lamports ← readU64 b (off + 65)
  let dlen ← readU64 b (off + 73)
  let _ ← readBytes b (off + 81) dlen
  some (⟨key, flag != [0], owner, lamports, ⟨off + 81, dlen⟩⟩, off + 81 + dlen)

/-- Modelled from the spec: parse `n` consecutive account records starting at
offset `off`. -/
def parseAccounts (b : List Nat) : Nat → Nat → Option (List SolKeyedAccounts × Nat)
  | 0, off => some ([], off)
  | n + 1, off => do
    let (a, off1) ← parseAccount b off
    let (rest, off2) ← parseAccounts b n off1
    some (a :: rest, off2)

/-- Modelled from the spec: `sol_deserialize` from `solana_sdk.h` (absent from the
source tree), faithful to spec §4.1 — read the leading account count, fail if it
exceeds the destination capacity `cap`, parse that many account records, then the
instruction-data length and bytes, then the trailing cluster-info record; any read
past the end of the buffer makes the whole parse fail with no partial success. -/
def sol_deserialize (b : List Nat) (cap : Nat) : Option SolDeserialized := do
  let n ← readU64 b 0
  if n ≤ cap then
    let (ka, off1) ← parseAccounts b n 8
    let dlen ← readU64 b off1
    let _ ← readBytes b (off1 + 8) dlen
    let tick ← readU64 b (off1 + 8 + dlen)
    some ⟨ka, n, ⟨off1 + 8, dlen⟩, ⟨tick⟩, off1 + 8 + dlen + 8⟩
  else
    none

/-- One call to an external logging collaborator, as recorded in the entrypoint's
log trace: `sol_log`, `sol_log_64`, or `sol_log_params` from `noop.c`. -/
inductive LogEvent where
  | sol_log (msg : String)
  | sol_log_64 (a b c d e : Nat)
  | sol_log_params (ka : List SolKeyedAccounts) (ka_len : Nat) (data : List Nat) (data_len : Nat)
deriving DecidableEq, Repr

/-- The string `__FILE__` expands to in `noop.c`. -/
def srcFile : String := "src/programs/bpf/c/src/noop.c"

/-- The exported `entrypoint` of `noop.c`: it logs the file name, deserializes the
input into a one-element account array (`SolKeyedAccounts ka[1]`, capacity
`SOL_ARRAY_SIZE(ka) = 1`), returns `false` if deserialization fails, and otherwise
logs the tick height and the parsed parameters and returns `true`.  The result is
the returned boolean paired with the trace of logging calls made, in order. -/
def entrypoint (input : List Nat) : Bool × List LogEvent :=
  match sol_deserialize input 1 with
  | none => (false, [LogEvent.sol_log srcFile])
  | some out =>
    (true,
      [LogEvent.sol_log srcFile,
       LogEvent.sol_log_64 out.info.tick_height 0 0 0 0,
       LogEvent.sol_log_params out.ka out.ka_len (sliceBytes input out.data) out.data.len])

/-- Host-side value of one account, before serialization: the actual data bytes are
held inline (unlike the parsed view, which borrows a slice of the buffer). -/
structure AccountVal where
  key : List Nat
  writable : Bool
  owner : List Nat
  lamports : Nat
  data : List Nat
deriving DecidableEq, Repr

/-- A host-side account value is well formed when its fields fit the wire types:
32-byte keys and 64-bit balance and data-length fields. -/
def wfAccount (a : AccountVal) : Prop :=
  a.key.length = 32 ∧ a.owner.length = 32 ∧ a.lamports < 2 ^ 64 ∧ a.data.length < 2 ^ 64

instance (a : AccountVal) : Decidable (wfAccount a) := by
  unfold wfAccount
  infer_instance

/-- Serialize one account record with the host's layout (spec §4.1): flag byte,
public key, owner key, balance counter, data length, inline data. -/
def serAccount (a : AccountVal) : List Nat :=
  [if a.writable then 1 else 0] ++ a.key ++ a.owner ++
    natToBytesLE 8 a.lamports ++ natToBytesLE 8 a.data.length ++ a.data

/-- The host's serializer (spec §4.1): leading count, account records, instruction
data length and bytes, trailing cluster info. -/
def sol_serialize (accs : List AccountVal) (instr : List Nat) (info : SolClusterInfo) :
    List Nat :=
  natToBytesLE 8 accs.length ++ (accs.map serAccount).flatten ++
    natToBytesLE 8 instr.length ++ instr ++ natToBytesLE 8 info.tick_height

/-- The 24-byte input buffer encoding zero accounts, an empty instruction-data
slice, and tick height zero. -/
def emptyInput : List Nat := sol_serialize [] [] ⟨0⟩

/-- Logging calls that may only follow a successful deserialization in `noop.c`:
`sol_log_64` and `sol_log_params`. -/
def LogEvent.isPostDeserLog : LogEvent → Bool
  | .sol_log_64 _ _ _ _ _ => true
  | .sol_log_params _ _ _ _ => true
  | .sol_log _ => false

/-- The parsed view of a host-side account value whose record starts at offset
`off` of the buffer: same fields, with the data bytes replaced by the borrowed
slice starting 81 bytes into the record. -/
def viewAccount (off : Nat) (a : AccountVal) : SolKeyedAccounts :=
  ⟨a.key, a.writable, a.owner, a.lamports, ⟨off + 81, a.data.length⟩⟩

/-- The parsed views of consecutively serialized account values starting at
offset `off`. -/
def viewAccounts : Nat → List AccountVal → List SolKeyedAccounts
  | _, [] => []
  | off, a :: as => viewAccount off a :: viewAccounts (off + (serAccount a).length) as

/-- The parsed account record agrees with the host-side value field by field: the
key, flag, owner and balance are copied, and the borrowed data slice reads back as
the original data bytes of `buf`. -/
def accountMatches (buf : List Nat) (p : SolKeyedAccounts) (v : AccountVal) : Prop :=
  p.key = v.key ∧ p.writable = v.writable ∧ p.owner = v.owner ∧
    p.lamports = v.lamports ∧ sliceBytes buf p.userdata = v.data

/-! ## Concrete inputs used as witnesses -/

/-- The parse result of `emptyInput`: no accounts, empty instruction slice at
offset 16, tick height zero, 24 bytes consumed. -/
def emptyOut : SolDeserialized := ⟨[], 0, ⟨16, 0⟩, ⟨0⟩, 24⟩

/-- An 8-byte buffer whose leading count field encodes two accounts. -/
def twoCountInput : List Nat := natToBytesLE 8 2

/-- A sample host-side account value with a three-byte data payload. -/
def sampleAccount : AccountVal :=
  ⟨List.replicate 32 7, true, List.replicate 32 9, 5, [1, 2, 3]⟩

/-- A 110-byte buffer encoding `sampleAccount`, two instruction bytes and tick
height 42. -/
def sampleInput : List Nat := sol_serialize [sampleAccount] [4, 5] ⟨42⟩

/-- The parse result of `sampleInput`: one account whose data slice sits at offset
89, the instruction slice at offset 100, and 110 bytes consumed. -/
def sampleOut : SolDeserialized :=
  ⟨[⟨List.replicate 32 7, true, List.replicate 32 9, 5, ⟨89, 3⟩⟩], 1,
    ⟨100, 2⟩, ⟨42⟩, 110⟩

/-! ## Characterizations of the parsing functions -/

/-- Successful `readBytes` unfolded. -/
theorem readBytes_eq_some_iff (b : List Nat) (off n : Nat) (l : List Nat) :
    readBytes b off n = some l ↔ off + n ≤ b.length ∧ l = (b.drop off).take n := by
  unfold readBytes
  split <;> simp_all [eq_comm]

/-- A successful bounds-checked read stays inside the buffer. -/
theorem readBytes_le_length {b : List Nat} {off n : Nat} {l : List Nat}
    (h : readBytes b off n = some l) : off + n ≤ b.length := by
  rw [readBytes_eq_some_iff] at h
  exact h.1

/-- A successful `readU64` needs eight bytes inside the buffer. -/
theorem readU64_le_length {b : List Nat} {off : Nat} {v : Nat}
    (h : readU64 b off = some v) : off + 8 ≤ b.length := by
  unfold readU64 at h
  cases hb : readBytes b off 8 with
  | none => rw [hb] at h; cases h
  | some l => exact readBytes_le_length hb

/-- Successful `parseAccount` unfolded into its six reads. -/
theorem parseAccount_eq_some_iff (b : List Nat) (off : Nat) (a : SolKeyedAccounts)
    (off2 : Nat) :
    parseAccount b off = some (a, off2) ↔
      ∃ flag key owner lamports dlen dat,
        readBytes b off 1 = some flag ∧ readBytes b (off + 1) 32 = some key ∧
        readBytes b (off + 33) 32 = some owner ∧ readU64 b (off + 65) = some lamports ∧
        readU64 b (off + 73) = some dlen ∧ readBytes b (off + 81) dlen = some dat ∧
        a = ⟨key, flag != [0], owner, lamports, ⟨off + 81, dlen⟩⟩ ∧ off2 = off + 81 + dlen := by
  unfold parseAccount
  constructor
  · intro h
    simp only [Option.bind_eq_bind, Option.bind_eq_some] at h
    obtain ⟨flag, h1, key, h2, owner, h3, lamports, h4, dlen, h5, dat, h6, h7⟩ := h
    simp only [Option.some.injEq, Prod.mk.injEq] at h7
    exact ⟨flag, key, owner, lamports, dlen, dat, h1, h2, h3, h4, h5, h6,
      h7.1.symm, h7.2.symm⟩
  · rintro ⟨flag, key, owner, lamports, dlen, dat, h1, h2, h3, h4, h5, h6, rfl, rfl⟩
    simp only [Option.bind_eq_bind, Option.bind_eq_some]
    exact ⟨flag, h1, key, h2, owner, h3, lamports, h4, dlen, h5, dat, h6, rfl⟩

/-- Successful `sol_deserialize` unfolded into its phases: count read and capacity
check, account records, instruction data, cluster info. -/
theorem sol_deserialize_eq_some_iff (b : List Nat) (cap : Nat) (out : SolDeserialized) :
    sol_deserialize b cap = some out ↔
      ∃ n ka off1 dlen sl tick,
        readU64 b 0 = some n ∧ n ≤ cap ∧ parseAccounts b n 8 = some (ka, off1) ∧
        readU64 b off1 = some dlen ∧ readBytes b (off1 + 8) dlen = some sl ∧
        readU64 b (off1 + 8 + dlen) = some tick ∧
        out = ⟨ka, n, ⟨off1 + 8, dlen⟩, ⟨tick⟩, off1 + 8 + dlen + 8⟩ := by
  unfold sol_deserialize
  constructor
  · intro h
    simp only [Option.bind_eq_bind, Option.bind_eq_some] at h
    obtain ⟨n, h1, h⟩ := h
    split at h
    · simp only [Option.bind_eq_some] at h
      obtain ⟨⟨ka, off1⟩, h2, dlen, h3, sl, h4, tick, h5, h6⟩ := h
      simp only [Option.some.injEq] at h6
      exact ⟨n, ka, off1, dlen, sl, tick, h1, by assumption, h2, h3, h4, h5, h6.symm⟩
    · cases h
  · rintro ⟨n, ka, off1, dlen, sl, tick, h1, h2, h3, h4, h5, h6, rfl⟩
    simp only [Option.bind_eq_bind, Option.bind_eq_some]
    refine ⟨n, h1, ?_⟩
    rw [if_pos h2]
    simp only [Option.bind_eq_some]
    exact ⟨(ka, off1), h3, dlen, h4, sl, h5, tick, h6, rfl⟩

/-- When the encoded count exceeds the capacity, `sol_deserialize` fails. -/
theorem sol_deserialize_count_gt_cap {b : List Nat} {cap n : Nat}
    (h : readU64 b 0 = some n) (hn : cap < n) : sol_deserialize b cap = none := by
  unfold sol_deserialize
  rw [h]
  simp only [Option.bind_eq_bind, Option.some_bind]
  rw [if_neg (by omega)]

/-! ## Little-endian codec lemmas -/

/-- `natToBytesLE k` always yields `k` bytes. -/
theorem natToBytesLE_length (k n : Nat) : (natToBytesLE k n).length = k := by
  induction k generalizing n with
  | zero => rfl
  | succ m ih => simp [natToBytesLE, ih]

/-- Decoding inverts encoding for values that fit in `k` bytes. -/
theorem bytesToNatLE_natToBytesLE (k n : Nat) (h : n < 256 ^ k) :
    bytesToNatLE (natToBytesLE k n) = n := by
  induction k generalizing n with
  | zero => interval_cases n; rfl
  | succ m ih =>
    have hdiv : n / 256 < 256 ^ m := by
      rw [Nat.div_lt_iff_lt_mul (by omega)]
      calc n < 256 ^ (m + 1) := h
        _ = 256 ^ m * 256 := by ring
    simp only [natToBytesLE, bytesToNatLE, ih (n / 256) hdiv]
    omega

/-! ## Reading back from an appended buffer -/

/-- Reading at the seam of an append recovers exactly the middle list. -/
theorem readBytes_append (pre l post : List Nat) (off n : Nat)
    (hoff : off = pre.length) (hn : n = l.length) :
    readBytes (pre ++ (l ++ post)) off n = some l := by
  subst hoff hn
  unfold readBytes
  rw [if_pos (by simp)]
  rw [List.drop_left, List.take_left]

/-- Reading a 64-bit field at the seam of an append recovers the encoded value. -/
theorem readU64_append (pre post : List Nat) (v off : Nat)
    (hoff : off = pre.length) (hv : v < 2 ^ 64) :
    readU64 (pre ++ (natToBytesLE 8 v ++ post)) off = some v := by
  unfold readU64
  rw [readBytes_append pre (natToBytesLE 8 v) post off 8 hoff
    (by rw [natToBytesLE_length])]
  rw [Option.map_some']
  rw [bytesToNatLE_natToBytesLE 8 v (by norm_num at hv ⊢; omega)]

/-- A successful read determines the corresponding slice's bytes. -/
theorem sliceBytes_of_readBytes {b : List Nat} {off n : Nat} {l : List Nat}
    (h : readBytes b off n = some l) : sliceBytes b ⟨off, n⟩ = l := by
  rw [readBytes_eq_some_iff] at h
  exact h.2.symm

/-- Parsing at the start of a serialized account record recovers the record's
parsed view and lands just past the record. -/
theorem parseAccount_ser (a : AccountVal) (pre post : List Nat) (off : Nat)
    (hwf : wfAccount a) (hoff : off = pre.length) :
    parseAccount (pre ++ (serAccount a ++ post)) off =
      some (viewAccount off a, off + (serAccount a).length) := by
  obtain ⟨hk, ho, hl, hd⟩ := hwf
  have hb : pre ++ (serAccount a ++ post) =
      pre ++ ([if a.writable then 1 else 0] ++ (a.key ++ (a.owner ++
        (natToBytesLE 8 a.lamports ++ (natToBytesLE 8 a.data.length ++
          (a.data ++ post)))))) := by
    simp [serAccount, List.append_assoc]
  rw [hb, parseAccount_eq_some_iff]
  refine ⟨[if a.writable then 1 else 0], a.key, a.owner, a.lamports, a.data.length,
    a.data, ?_, ?_, ?_, ?_, ?_, ?_, ?_, ?_⟩
  · exact readBytes_append pre _ _ off 1 hoff (by simp)
  · have := readBytes_append (pre ++ [if a.writable then 1 else 0]) a.key
      (a.owner ++ (natToBytesLE 8 a.lamports ++ (natToBytesLE 8 a.data.length ++
        (a.data ++ post)))) (off + 1) 32 (by simp [hoff]) hk.symm
    simpa [List.append_assoc] using this
  · have := readBytes_append (pre ++ [if a.writable then 1 else 0] ++ a.key) a.owner
      (natToBytesLE 8 a.lamports ++ (natToBytesLE 8 a.data.length ++ (a.data ++ post)))
      (off + 33) 32 (by simp [hoff, hk]) ho.symm
    simpa [List.append_assoc] using this
  · have := readU64_append (pre ++ [if a.writable then 1 else 0] ++ a.key ++ a.owner)
      (natToBytesLE 8 a.data.length ++ (a.data ++ post)) a.lamports (off + 65)
      (by simp [hoff, hk, ho]) hl
    simpa [List.append_assoc] using this
  · have := readU64_append (pre ++ [if a.writable then 1 else 0] ++ a.key ++ a.owner ++
      natToBytesLE 8 a.lamports) (a.data ++ post) a.data.length (off + 73)
      (by simp [hoff, hk, ho, natToBytesLE_length]) hd
    simpa [List.append_assoc] using this
  · have := readBytes_append (pre ++ [if a.writable then 1 else 0] ++ a.key ++ a.owner ++
      natToBytesLE 8 a.lamports ++ natToBytesLE 8 a.data.length) a.data post
      (off + 81) a.data.length
      (by simp [hoff, hk, ho, natToBytesLE_length]) rfl
    simpa [List.append_assoc] using this
  · cases hw : a.writable <;> simp [viewAccount, hw]
  · simp [serAccount, natToBytesLE_length, hk, ho]
    omega

/-- Parsing `accs.length` records over the serialized concatenation recovers all
the parsed views and lands just past the concatenation. -/
theorem parseAccounts_ser (accs : List AccountVal) (pre post : List Nat) (off : Nat)
    (hwf : ∀ a ∈ accs, wfAccount a) (hoff : off = pre.length) :
    parseAccounts (pre ++ ((accs.map serAccount).flatten ++ post)) accs.length off =
      some (viewAccounts off accs, off + (accs.map serAccount).flatten.length) := by
  induction accs generalizing pre off with
  | nil => simp [parseAccounts, viewAccounts]
  | cons a as ih =>
    have hbuf : pre ++ (((a :: as).map serAccount).flatten ++ post) =
        pre ++ (serAccount a ++ ((as.map serAccount).flatten ++ post)) := by
      simp [List.append_assoc]
    rw [hbuf, List.length_cons]
    have hih := ih (pre ++ serAccount a) (off + (serAccount a).length)
      (fun x hx => hwf x (List.mem_cons_of_mem a hx)) (by simp [hoff])
    rw [show (pre ++ serAccount a) ++ ((as.map serAccount).flatten ++ post) =
      pre ++ (serAccount a ++ ((as.map serAccount).flatten ++ post)) from by
        simp [List.append_assoc]] at hih
    simp only [parseAccounts, Option.bind_eq_bind,
      parseAccount_ser a pre ((as.map serAccount).flatten ++ post) off
        (hwf a (List.mem_cons_self a as)) hoff,
      Option.some_bind, hih]
    simp [viewAccounts, Nat.add_assoc]

/-- The inline data bytes of a serialized account record read back intact from 81
bytes into the record. -/
theorem serAccount_data_read (a : AccountVal) (pre post : List Nat) (off : Nat)
    (hwf : wfAccount a) (hoff : off = pre.length) :
    readBytes (pre ++ (serAccount a ++ post)) (off + 81) a.data.length = some a.data := by
  obtain ⟨hk, ho, hl, hd⟩ := hwf
  have := readBytes_append (pre ++ [if a.writable then 1 else 0] ++ a.key ++ a.owner ++
      natToBytesLE 8 a.lamports ++ natToBytesLE 8 a.data.length) a.data post
      (off + 81) a.data.length (by simp [hoff, hk, ho, natToBytesLE_length]) rfl
  simpa [serAccount, List.append_assoc] using this

/-- Every parsed view of a serialized account list matches its host-side value
field by field, data bytes included. -/
theorem viewAccounts_matches (accs : List AccountVal) (pre post : List Nat) (off : Nat)
    (hwf : ∀ a ∈ accs, wfAccount a) (hoff : off = pre.length) :
    List.Forall₂ (accountMatches (pre ++ ((accs.map serAccount).flatten ++ post)))
      (viewAccounts off accs) accs := by
  induction accs generalizing pre off with
  | nil => simp [viewAccounts]
  | cons a as ih =>
    rw [show pre ++ (((a :: as).map serAccount).flatten ++ post) =
      pre ++ (serAccount a ++ ((as.map serAccount).flatten ++ post)) from by
        simp [List.append_assoc]]
    simp only [viewAccounts]
    refine List.Forall₂.cons ⟨rfl, rfl, rfl, rfl, ?_⟩ ?_
    · exact sliceBytes_of_readBytes (serAccount_data_read a pre
        ((as.map serAccount).flatten ++ post) off (hwf a (List.mem_cons_self a as)) hoff)
    · have := ih (pre ++ serAccount a) (off + (serAccount a).length)
        (fun x hx => hwf x (List.mem_cons_of_mem a hx)) (by simp [hoff])
      simpa [List.append_assoc] using this

/-- Core round trip: deserializing the host's serialization of well-formed values
yields exactly the expected result record, with slices pointing at the serialized
data and instruction regions. -/
theorem sol_deserialize_sol_serialize (accs : List AccountVal) (instr : List Nat)
    (info : SolClusterInfo) (cap : Nat)
    (hwf : ∀ a ∈ accs, wfAccount a) (hlen : accs.length ≤ cap)
    (hcnt : accs.length < 2 ^ 64) (hinstr : instr.length < 2 ^ 64)
    (htick : info.tick_height < 2 ^ 64) :
    sol_deserialize (sol_serialize accs instr info) cap =
      some ⟨viewAccounts 8 accs, accs.length,
        ⟨8 + (accs.map serAccount).flatten.length + 8, instr.length⟩, info,
        8 + (accs.map serAccount).flatten.length + 8 + instr.length + 8⟩ := by
  rw [sol_deserialize_eq_some_iff]
  refine ⟨accs.length, viewAccounts 8 accs, 8 + (accs.map serAccount).flatten.length,
    instr.length, instr, info.tick_height, ?_, hlen, ?_, ?_, ?_, ?_, rfl⟩
  · have := readU64_append ([] : List Nat)
      ((accs.map serAccount).flatten ++ (natToBytesLE 8 instr.length ++
        (instr ++ natToBytesLE 8 info.tick_height))) accs.length 0 rfl hcnt
    simpa [sol_serialize, List.append_assoc] using this
  · have := parseAccounts_ser accs (natToBytesLE 8 accs.length)
      (natToBytesLE 8 instr.length ++ (instr ++ natToBytesLE 8 info.tick_height)) 8
      hwf (by simp [natToBytesLE_length])
    simpa [sol_serialize, List.append_assoc] using this
  · have := readU64_append (natToBytesLE 8 accs.length ++ (accs.map serAccount).flatten)
      (instr ++ natToBytesLE 8 info.tick_height) instr.length
      (8 + (accs.map serAccount).flatten.length)
      (by simp [natToBytesLE_length]) hinstr
    simpa [sol_serialize, List.append_assoc] using this
  · have := readBytes_append (natToBytesLE 8 accs.length ++
      (accs.map serAccount).flatten ++ natToBytesLE 8 instr.length) instr
      (natToBytesLE 8 info.tick_height)
      (8 + (accs.map serAccount).flatten.length + 8) instr.length
      (by simp [natToBytesLE_length]; omega) rfl
    simpa [sol_serialize, List.append_assoc] using this
  · have := readU64_append (natToBytesLE 8 accs.length ++
      (accs.map serAccount).flatten ++ natToBytesLE 8 instr.length ++ instr)
      ([] : List Nat) info.tick_height
      (8 + (accs.map serAccount).flatten.length + 8 + instr.length)
      (by simp [natToBytesLE_length]; omega) htick
    simpa [sol_serialize, List.append_assoc] using this

/-- The parsed views are in bijection with the host-side values. -/
theorem viewAccounts_length (off : Nat) (accs : List AccountVal) :
    (viewAccounts off accs).length = accs.length := by
  induction accs generalizing off with
  | nil => rfl
  | cons a as ih => simp [viewAccounts, ih]

/-- Successful `parseAccounts` on a successor count unfolded into the head record
and the rest. -/
theorem parseAccounts_succ_eq_some_iff (b : List Nat) (n off : Nat)
    (ka : List SolKeyedAccounts) (off2 : Nat) :
    parseAccounts b (n + 1) off = some (ka, off2) ↔
      ∃ a off1 rest, parseAccount b off = some (a, off1) ∧
        parseAccounts b n off1 = some (rest, off2) ∧ ka = a :: rest := by
  constructor
  · intro h
    simp only [parseAccounts, Option.bind_eq_bind, Option.bind_eq_some] at h
    obtain ⟨⟨a, off1⟩, h1, ⟨rest, off3⟩, h2, h3⟩ := h
    simp only [Option.some.injEq, Prod.mk.injEq] at h3
    exact ⟨a, off1, rest, h1, h3.2 ▸ h2, h3.1.symm⟩
  · rintro ⟨a, off1, rest, h1, h2, rfl⟩
    simp only [parseAccounts, Option.bind_eq_bind, Option.bind_eq_some]
    exact ⟨(a, off1), h1, (rest, off2), h2, rfl⟩

/-- The borrowed data slice of one parsed account record lies within the buffer. -/
theorem parseAccount_userdata_le {b : List Nat} {off off2 : Nat} {a : SolKeyedAccounts}
    (h : parseAccount b off = some (a, off2)) :
    a.userdata.off + a.userdata.len ≤ b.length := by
  rw [parseAccount_eq_some_iff] at h
  obtain ⟨flag, key, owner, lam, dlen, dat, _, _, _, _, _, h6, rfl, _⟩ := h
  exact readBytes_le_length h6

/-- The borrowed data slices of all parsed account records lie within the buffer. -/
theorem parseAccounts_userdata_le (b : List Nat) :
    ∀ n off ka off2, parseAccounts b n off = some (ka, off2) →
      ∀ a ∈ ka, a.userdata.off + a.userdata.len ≤ b.length := by
  intro n
  induction n with
  | zero =>
    intro off ka off2 h a ha
    simp only [parseAccounts, Option.some.injEq, Prod.mk.injEq] at h
    rw [← h.1] at ha
    cases ha
  | succ m ih =>
    intro off ka off2 h a ha
    rw [parseAccounts_succ_eq_some_iff] at h
    obtain ⟨a1, off1, rest, h1, h2, rfl⟩ := h
    rcases List.mem_cons.mp ha with h | h
    · exact h ▸ parseAccount_userdata_le h1
    · exact ih off1 rest off2 h2 a h

/-! ## Truncation lemmas -/

/-- A successful bounds-checked read from a truncated buffer lies before the
truncation point and succeeds identically on the full buffer. -/
theorem readBytes_take {b : List Nat} {k off n : Nat} {l : List Nat}
    (hk : k ≤ b.length) (h : readBytes (b.take k) off n = some l) :
    off + n ≤ k ∧ readBytes b off n = some l := by
  rw [readBytes_eq_some_iff] at h
  obtain ⟨hb, hl⟩ := h
  rw [List.length_take] at hb
  have hbk : off + n ≤ k := le_trans hb (min_le_left _ _)
  refine ⟨hbk, ?_⟩
  rw [readBytes_eq_some_iff]
  refine ⟨le_trans hbk hk, ?_⟩
  rw [hl, List.drop_take, List.take_take, min_eq_left (by omega)]

/-- A successful 64-bit read from a truncated buffer lies before the truncation
point and succeeds identically on the full buffer. -/
theorem readU64_take {b : List Nat} {k off v : Nat}
    (hk : k ≤ b.length) (h : readU64 (b.take k) off = some v) :
    off + 8 ≤ k ∧ readU64 b off = some v := by
  unfold readU64 at h ⊢
  cases hb : readBytes (b.take k) off 8 with
  | none => rw [hb] at h; cases h
  | some l =>
    rw [hb] at h
    obtain ⟨h1, h2⟩ := readBytes_take hk hb
    rw [h2]
    exact ⟨h1, h⟩

/-- A successful account parse from a truncated buffer ends before the truncation
point and succeeds identically on the full buffer. -/
theorem parseAccount_take {b : List Nat} {k off off2 : Nat} {a : SolKeyedAccounts}
    (hk : k ≤ b.length) (h : parseAccount (b.take k) off = some (a, off2)) :
    parseAccount b off = some (a, off2) ∧ off2 ≤ k := by
  rw [parseAccount_eq_some_iff] at h
  obtain ⟨flag, key, owner, lam, dlen, dat, h1, h2, h3, h4, h5, h6, rfl, rfl⟩ := h
  obtain ⟨b1, h1⟩ := readBytes_take hk h1
  obtain ⟨b2, h2⟩ := readBytes_take hk h2
  obtain ⟨b3, h3⟩ := readBytes_take hk h3
  obtain ⟨b4, h4⟩ := readU64_take hk h4
  obtain ⟨b5, h5⟩ := readU64_take hk h5
  obtain ⟨b6, h6⟩ := readBytes_take hk h6
  refine ⟨?_, by omega⟩
  rw [parseAccount_eq_some_iff]
  exact ⟨flag, key, owner, lam, dlen, dat, h1, h2, h3, h4, h5, h6, rfl, rfl⟩

/-- A successful multi-account parse from a truncated buffer succeeds identically
on the full buffer. -/
theorem parseAccounts_take {b : List Nat} {k : Nat} (hk : k ≤ b.length) :
    ∀ {n off ka off2}, parseAccounts (b.take k) n off = some (ka, off2) →
      parseAccounts b n off = some (ka, off2) := by
  intro n
  induction n with
  | zero =>
    intro off ka off2 h
    simpa [parseAccounts] using h
  | succ m ih =>
    intro off ka off2 h
    rw [parseAccounts_succ_eq_some_iff] at h ⊢
    obtain ⟨a, off1, rest, h1, h2, rfl⟩ := h
    exact ⟨a, off1, rest, (parseAccount_take hk h1).1, ih h2, rfl⟩

/-- A successful deserialization of a truncated buffer succeeds identically on the
full buffer and consumed no byte past the truncation point. -/
theorem sol_deserialize_take {b : List Nat} {k cap : Nat} {out : SolDeserialized}
    (hk : k ≤ b.length) (h : sol_deserialize (b.take k) cap = some out) :
    sol_deserialize b cap = some out ∧ out.endPos ≤ k := by
  rw [sol_deserialize_eq_some_iff] at h
  obtain ⟨n, ka, off1, dlen, sl, tick, h1, h2, h3, h4, h5, h6, rfl⟩ := h
  obtain ⟨b1, h1⟩ := readU64_take hk h1
  have h3 := parseAccounts_take hk h3
  obtain ⟨b4, h4⟩ := readU64_take hk h4
  obtain ⟨b5, h5⟩ := readBytes_take hk h5
  obtain ⟨b6, h6⟩ := readU64_take hk h6
  refine ⟨?_, by simp only []; omega⟩
  rw [sol_deserialize_eq_some_iff]
  exact ⟨n, ka, off1, dlen, sl, tick, h1, h2, h3, h4, h5, h6, rfl⟩

/-! ## Claim theorems -/

/-- C1: for every input buffer, the exported entrypoint returns `true` to the host
exactly when `sol_deserialize` succeeds on that buffer, and `false` exactly when
deserialization fails. -/
theorem entrypoint_true_iff_deserialize_some (input : List Nat) :
    (entrypoint input).1 = (sol_deserialize input 1).isSome := by
  unfold entrypoint
  cases sol_deserialize input 1 <;> rfl

/-- C2: the reported account count never exceeds the destination capacity, and an
input whose encoded count exceeds the capacity makes deserialization fail outright
rather than overflowing or truncating. -/
theorem deserialize_count_le_capacity :
    (∀ (b : List Nat) (cap : Nat) (out : SolDeserialized),
        sol_deserialize b cap = some out → out.ka_len ≤ cap) ∧
    (∀ (b : List Nat) (cap n : Nat),
        readU64 b 0 = some n → cap < n → sol_deserialize b cap = none) := by
  constructor
  · intro b cap out h
    rw [sol_deserialize_eq_some_iff] at h
    obtain ⟨n, ka, off1, dlen, sl, tick, _, h2, _, _, _, _, rfl⟩ := h
    exact h2
  · intro b cap n h hn
    exact sol_deserialize_count_gt_cap h hn

/-- Witness for C2: the zero-account buffer parses with count `0 ≤ 1`, and a buffer
declaring two accounts fails against capacity one. -/
theorem deserialize_count_le_capacity_witness :
    emptyOut.ka_len ≤ 1 ∧ sol_deserialize twoCountInput 1 = none :=
  ⟨deserialize_count_le_capacity.1 emptyInput 1 emptyOut (by decide),
   deserialize_count_le_capacity.2 twoCountInput 1 2 (by decide) (by decide)⟩

/-- C6: when deserialization fails, the failure is terminal — the entrypoint
returns `false`, its whole log trace is the single unconditional `sol_log` of the
file name, and in particular neither `sol_log_64` nor `sol_log_params` is
invoked. -/
theorem entrypoint_failure_terminal (input : List Nat)
    (h : sol_deserialize input 1 = none) :
    (entrypoint input).1 = false ∧
      (entrypoint input).2 = [LogEvent.sol_log srcFile] ∧
      ((entrypoint input).2.filter LogEvent.isPostDeserLog) = [] := by
  unfold entrypoint
  rw [h]
  exact ⟨rfl, rfl, rfl⟩

/-- Witness for C6: the empty buffer fails to deserialize and the entrypoint
returns `false` on it. -/
theorem entrypoint_failure_terminal_witness :
    sol_deserialize ([] : List Nat) 1 = none ∧ (entrypoint []).1 = false :=
  ⟨by decide, (entrypoint_failure_terminal [] (by decide)).1⟩

/-- C7 counterexample: on the empty buffer, deserialization never succeeds, yet the
entrypoint emits a diagnostic `sol_log` of the file name — so logging is not
confined to after a successful `sol_deserialize`. -/
theorem log_before_deserialize_counterexample :
    sol_deserialize (List.replicate 4 0) 1 = none ∧
      (entrypoint (List.replicate 4 0)).2 = [LogEvent.sol_log srcFile] := by
  constructor
  · rfl
  · rfl

/-- C7 amended: the entrypoint always emits the `sol_log` of the file name first,
before deserialization; the remaining logging collaborators (`sol_log_64`,
`sol_log_params`) are invoked only after `sol_deserialize` has succeeded. -/
theorem log64_params_only_after_success (input : List Nat) :
    (entrypoint input).2.head? = some (LogEvent.sol_log srcFile) ∧
      (((entrypoint input).2.filter LogEvent.isPostDeserLog) ≠ [] →
        (sol_deserialize input 1).isSome = true) := by
  unfold entrypoint
  cases h : sol_deserialize input 1 <;>
    simp [List.filter, LogEvent.isPostDeserLog]

/-- Witness for C7 (amended): on the zero-account buffer the post-deserialization
log calls do occur, and deserialization indeed succeeded. -/
theorem log64_params_only_after_success_witness :
    ((entrypoint emptyInput).2.filter LogEvent.isPostDeserLog ≠ []) ∧
      (sol_deserialize emptyInput 1).isSome = true :=
  ⟨by decide, (log64_params_only_after_success emptyInput).2 (by decide)⟩

/-- C8: the input encoding zero accounts and instruction-data length zero
deserializes successfully with reported count zero and an empty instruction-data
slice, and the entrypoint returns `true` on it. -/
theorem empty_input_succeeds :
    sol_deserialize emptyInput 1 = some emptyOut ∧ emptyOut.ka_len = 0 ∧
      emptyOut.data.len = 0 ∧ sliceBytes emptyInput emptyOut.data = [] ∧
      (entrypoint emptyInput).1 = true := by
  decide

/-- C10: the entrypoint's destination array has capacity exactly one
(`SolKeyedAccounts ka[1]`), so any input whose leading count field encodes two or
more accounts makes the entrypoint return `false`. -/
theorem entrypoint_two_accounts_false (input : List Nat) (n : Nat)
    (h : readU64 input 0 = some n) (hn : 2 ≤ n) :
    (entrypoint input).1 = false := by
  have hd : sol_deserialize input 1 = none :=
    sol_deserialize_count_gt_cap h (by omega)
  unfold entrypoint
  rw [hd]

/-- Witness for C10: the count-two buffer is rejected by the entrypoint. -/
theorem entrypoint_two_accounts_false_witness :
    readU64 twoCountInput 0 = some 2 ∧ 2 ≤ 2 ∧
      (entrypoint twoCountInput).1 = false :=
  ⟨by decide, by decide,
   entrypoint_two_accounts_false twoCountInput 2 (by decide) (by decide)⟩

/-- C3: deserialization performs no out-of-bounds read — on success the whole
consumed region lies within the buffer (and every read along the way was
bounds-checked) — and truncating the buffer anywhere strictly before the end of
its declared layout makes deserialization fail. -/
theorem deserialize_truncation_fails (b : List Nat) (cap : Nat) (out : SolDeserialized)
    (h : sol_deserialize b cap = some out) :
    out.endPos ≤ b.length ∧
      ∀ k, k < out.endPos → sol_deserialize (b.take k) cap = none := by
  have hend : out.endPos ≤ b.length := by
    rw [sol_deserialize_eq_some_iff] at h
    obtain ⟨n, ka, off1, dlen, sl, tick, h1, h2, h3, h4, h5, h6, rfl⟩ := h
    simpa using readU64_le_length h6
  refine ⟨hend, ?_⟩
  intro k hkend
  cases hc : sol_deserialize (b.take k) cap with
  | none => rfl
  | some out' =>
    exfalso
    obtain ⟨hfull, hep⟩ := sol_deserialize_take (by omega) hc
    rw [h] at hfull
    obtain rfl := Option.some.inj hfull
    omega

/-- Witness for C3: the 110-byte sample buffer parses to its end at 110, and cutting
it to 50 bytes makes deserialization fail. -/
theorem deserialize_truncation_fails_witness :
    sampleOut.endPos ≤ sampleInput.length ∧
      sol_deserialize (sampleInput.take 50) 1 = none := by
  have h := deserialize_truncation_fails sampleInput 1 sampleOut (by decide)
  exact ⟨h.1, h.2 50 (by decide)⟩

/-- C4: a valid input buffer — one produced by the host's serializer from
well-formed values — whose encoded account count is at most the destination
capacity deserializes successfully, and the reported count equals the count
encoded in the buffer's leading field. -/
theorem valid_input_reported_count (accs : List AccountVal) (instr : List Nat)
    (info : SolClusterInfo) (cap : Nat)
    (hwf : ∀ a ∈ accs, wfAccount a) (hlen : accs.length ≤ cap)
    (hcnt : accs.length < 2 ^ 64) (hinstr : instr.length < 2 ^ 64)
    (htick : info.tick_height < 2 ^ 64) :
    ∃ out, sol_deserialize (sol_serialize accs instr info) cap = some out ∧
      readU64 (sol_serialize accs instr info) 0 = some accs.length ∧
      out.ka_len = accs.length ∧ out.ka.length = accs.length := by
  refine ⟨_, sol_deserialize_sol_serialize accs instr info cap hwf hlen hcnt hinstr htick,
    ?_, rfl, ?_⟩
  · have := readU64_append ([] : List Nat)
      ((accs.map serAccount).flatten ++ (natToBytesLE 8 instr.length ++
        (instr ++ natToBytesLE 8 info.tick_height))) accs.length 0 rfl hcnt
    simpa [sol_serialize, List.append_assoc] using this
  · exact viewAccounts_length 8 accs

/-- Witness for C4: the sample one-account buffer deserializes against capacity one
with reported count `1`, matching its encoded count. -/
theorem valid_input_reported_count_witness :
    ∃ out, sol_deserialize sampleInput 1 = some out ∧
      readU64 sampleInput 0 = some 1 ∧ out.ka_len = 1 ∧ out.ka.length = 1 := by
  have := valid_input_reported_count [sampleAccount] [4, 5] ⟨42⟩ 1
    (by decide) (by decide) (by decide) (by decide) (by decide)
  simpa [sampleInput] using this

/-- C5: serializing accounts, instruction bytes and cluster info with the host's
layout and then deserializing yields equal values for every field — each parsed
account matches its source value in key, flag, owner, balance and data bytes, the
instruction slice reads back as the instruction bytes, and the cluster info record
is returned unchanged. -/
theorem serialize_deserialize_roundtrip (accs : List AccountVal) (instr : List Nat)
    (info : SolClusterInfo) (cap : Nat)
    (hwf : ∀ a ∈ accs, wfAccount a) (hlen : accs.length ≤ cap)
    (hcnt : accs.length < 2 ^ 64) (hinstr : instr.length < 2 ^ 64)
    (htick : info.tick_height < 2 ^ 64) :
    ∃ out, sol_deserialize (sol_serialize accs instr info) cap = some out ∧
      List.Forall₂ (accountMatches (sol_serialize accs instr info)) out.ka accs ∧
      out.ka_len = accs.length ∧
      sliceBytes (sol_serialize accs instr info) out.data = instr ∧
      out.info = info := by
  refine ⟨_, sol_deserialize_sol_serialize accs instr info cap hwf hlen hcnt hinstr htick,
    ?_, rfl, ?_, rfl⟩
  · have := viewAccounts_matches accs (natToBytesLE 8 accs.length)
      (natToBytesLE 8 instr.length ++ (instr ++ natToBytesLE 8 info.tick_height)) 8
      hwf (by simp [natToBytesLE_length])
    simpa [sol_serialize, List.append_assoc] using this
  · refine sliceBytes_of_readBytes ?_
    have := readBytes_append (natToBytesLE 8 accs.length ++
      (accs.map serAccount).flatten ++ natToBytesLE 8 instr.length) instr
      (natToBytesLE 8 info.tick_height)
      (8 + (accs.map serAccount).flatten.length + 8) instr.length
      (by simp [natToBytesLE_length]; omega) rfl
    simpa [sol_serialize, List.append_assoc] using this

/-- Witness for C5: the sample account, instruction bytes `[4, 5]` and tick height
42 round-trip through the buffer with every field equal. -/
theorem serialize_deserialize_roundtrip_witness :
    ∃ out, sol_deserialize sampleInput 1 = some out ∧
      List.Forall₂ (accountMatches sampleInput) out.ka [sampleAccount] ∧
      out.ka_len = 1 ∧ sliceBytes sampleInput out.data = [4, 5] ∧
      out.info = ⟨42⟩ := by
  have := serialize_deserialize_roundtrip [sampleAccount] [4, 5] ⟨42⟩ 1
    (by decide) (by decide) (by decide) (by decide) (by decide)
  simpa [sampleInput] using this

/-- C9: on every successful deserialization, each borrowed slice — every account's
data slice and the instruction-data slice — references a region lying within the
bounds of the original input buffer. -/
theorem deserialize_slices_in_bounds (b : List Nat) (cap : Nat) (out : SolDeserialized)
    (h : sol_deserialize b cap = some out) :
    out.data.off + out.data.len ≤ b.length ∧
      ∀ a ∈ out.ka, a.userdata.off + a.userdata.len ≤ b.length := by
  rw [sol_deserialize_eq_some_iff] at h
  obtain ⟨n, ka, off1, dlen, sl, tick, h1, h2, h3, h4, h5, h6, rfl⟩ := h
  exact ⟨readBytes_le_length h5, parseAccounts_userdata_le b n 8 ka off1 h3⟩

/-- Witness for C9: the sample buffer's instruction slice `[100, 2]` lies inside its
110 bytes. -/
theorem deserialize_slices_in_bounds_witness :
    sampleOut.data.off + sampleOut.data.len ≤ sampleInput.length :=
  (deserialize_slices_in_bounds sampleInput 1 sampleOut (by decide)).1

end Noop
